import Mathlib

/-!
Shallow embedding of the dropdown logic of the `luxora-ui` component library.

Sources embedded:
* `src/shared/utils` (`filterOptions`, `getSelectedOptionLabels`)
* `src/shared/hooks` (`useKeyboardNavigation`'s key handler, `useVirtualScroll`)
* the `InputDropdown` component itself (`src/test/setup.ts`): its selection
  handler `handleSelect`, its open/close callbacks, and its virtualization
  constants (`LARGE_LIST_THRESHOLD`, `ITEM_HEIGHT`, `dropdownHeight`).

JavaScript strings are modelled as Lean `String`s; `toLowerCase`, `trim` and
`includes` are embedded explicitly below.  JavaScript numbers that the code
uses as array indices are modelled as `Int` (the code uses `-1` as a sentinel)
or `Nat`.  Array accesses that can yield `undefined` in JavaScript are
modelled with `Option`/`-1` sentinels exactly where the source relies on them.
-/

/-- The six ASCII whitespace characters recognised by JavaScript's
`String.prototype.trim` (the Unicode space classes are not needed by any
claim and are omitted from the model). -/
def isJsWhitespace (c : Char) : Bool :=
  c = ' ' || c = '\t' || c = '\n' || c = '\r' || c = '\x0b' || c = '\x0c'

/-- JavaScript `s.trim()`: drop leading and trailing whitespace. -/
def jsTrim (s : String) : String :=
  ⟨((s.data.dropWhile isJsWhitespace).reverse.dropWhile isJsWhitespace).reverse⟩

/-- JavaScript `s.toLowerCase()` (ASCII case mapping). -/
def jsToLower (s : String) : String :=
  ⟨s.data.map Char.toLower⟩

/-- `isPrefixL p l` holds when the character list `p` is a prefix of `l`. -/
def isPrefixL : List Char → List Char → Bool
  | [], _ => true
  | _ :: _, [] => false
  | a :: as, b :: bs => a == b && isPrefixL as bs

/-- `hasSub q l` holds when `q` occurs contiguously inside `l`. -/
def hasSub (needle : List Char) : List Char → Bool
  | [] => isPrefixL needle []
  | b :: bs => isPrefixL needle (b :: bs) || hasSub needle bs

/-- JavaScript `s.includes(q)`: substring containment. -/
def jsIncludes (s q : String) : Bool :=
  hasSub q.data s.data

/-- The `Option` record of `src/shared/types` (named `Opt` here because
`Option` is taken by Lean).  `description` is optional and `disabled`
defaults to `false`, as in the TypeScript type. -/
structure Opt where
  label : String
  value : String
  description : Option String := none
  disabled : Bool := false
deriving DecidableEq, Repr

/-- The predicate applied to each option inside `filterOptions`
(`src/shared/utils`, lines 22-27): the lowercased label, value or
description contains the (already lowercased) query. -/
def optionMatches (lowercaseQuery : String) (o : Opt) : Bool :=
  jsIncludes (jsToLower o.label) lowercaseQuery ||
  jsIncludes (jsToLower o.value) lowercaseQuery ||
  (match o.description with
   | some d => jsIncludes (jsToLower d) lowercaseQuery
   | none => false)

/-- `filterOptions` from `src/shared/utils`, lines 18-28: a query with an
empty trim returns the options unchanged, otherwise the options are filtered
by case-insensitive substring match on label, value and description. -/
def filterOptions (options : List Opt) (query : String) : List Opt :=
  if jsTrim query = "" then options
  else
    let lowercaseQuery := jsToLower query
    options.filter (optionMatches lowercaseQuery)

/-- The `value` prop of the dropdown: `Option | Option[] | undefined` in the
TypeScript source, as a sum. -/
inductive SelValue where
  | undef : SelValue
  | single : Opt → SelValue
  | multi : List Opt → SelValue
deriving DecidableEq, Repr

/-- `getSelectedOptionLabels` from `src/shared/utils`, lines 33-48.  The
`!value` test is true exactly for the `undefined` case (an option object and
an array, even an empty one, are truthy in JavaScript). -/
def getSelectedOptionLabels (value : SelValue) (multiple : Bool) : List String :=
  match value with
  | SelValue.undef => []
  | SelValue.single o => if multiple then [] else [o.label]
  | SelValue.multi l => if multiple then l.map Opt.label else []

/-- The claim's reading of "contains the query as a case-insensitive
substring", stated independently of the code as an explicit decomposition of
the lowercased haystack. -/
def isSubstrCI (q s : String) : Prop :=
  ∃ pre post, (jsToLower s).data = pre ++ (jsToLower q).data ++ post

/-- The spec's filtering predicate: the query occurs case-insensitively in
the label, the value, or the (present) description. -/
def specMatchesCI (q : String) (o : Opt) : Prop :=
  isSubstrCI q o.label ∨ isSubstrCI q o.value ∨
    ∃ d, o.description = some d ∧ isSubstrCI q d

/-- The keys handled by `useKeyboardNavigation` (`src/shared/hooks`,
lines 51-134).  `other` stands for any key not in the switch. -/
inductive Key where
  | arrowDown | arrowUp | enter | space | escape | home | endKey | other
deriving DecidableEq, Repr

/-- The callback invoked by one key-down: `onSelect` with the chosen option,
`onClose`, `onOpen`, or nothing. -/
inductive NavEffect where
  | selectEff : Opt → NavEffect
  | closeEff : NavEffect
  | openEff : NavEffect
  | noEff : NavEffect
deriving DecidableEq, Repr

/-- The positions (in `options`) of the non-disabled options.  The source
computes `options.filter(o => !o.disabled)` and recovers positions through
`options.indexOf` on the filtered objects; since `indexOf` uses reference
identity, the filtered array is faithfully represented by this list of
indices. -/
def availIdx (options : List Opt) : List Nat :=
  (options.enum.filter (fun p => !p.2.disabled)).map Prod.fst

/-- JavaScript `Array.prototype.findIndex`: first index satisfying the
predicate, `-1` when none does. -/
def jsFindIndexL {α : Type} (p : α → Bool) : List α → Int
  | [] => -1
  | x :: xs =>
      if p x then 0
      else
        let r := jsFindIndexL p xs
        if r = -1 then -1 else r + 1

/-- `availableOptions.findIndex((_, index) => options.indexOf(availableOptions[index]) === prev)`
(`src/shared/hooks`, lines 75-77 and 89-91): the position of `prev` inside
the list of non-disabled indices, `-1` when `prev` is not one of them. -/
def jsPosOf (avail : List Nat) (prev : Int) : Int :=
  jsFindIndexL (fun (i : Nat) => (i : Int) == prev) avail

/-- `options.indexOf(availableOptions[j])`: the option index stored at
position `j` of the filtered list, `-1` when `j` is out of bounds (in
JavaScript the access yields `undefined` and `indexOf(undefined)` is `-1`). -/
def jsIndexOfAvail (avail : List Nat) (j : Int) : Int :=
  if j < 0 then -1
  else
    match avail.get? j.toNat with
    | some v => (v : Int)
    | none => -1

/-- The new highlighted index computed by the `ArrowDown` branch
(`src/shared/hooks`, lines 69-82). -/
def nextDownIdx (options : List Opt) (prev : Int) : Int :=
  let avail := availIdx options
  let currentIndex := jsPosOf avail prev
  let nextIndex := if currentIndex < (avail.length : Int) - 1 then currentIndex + 1 else 0
  jsIndexOfAvail avail nextIndex

/-- The new highlighted index computed by the `ArrowUp` branch
(`src/shared/hooks`, lines 83-96). -/
def nextUpIdx (options : List Opt) (prev : Int) : Int :=
  let avail := availIdx options
  let currentIndex := jsPosOf avail prev
  let prevIndex := if currentIndex > 0 then currentIndex - 1 else (avail.length : Int) - 1
  jsIndexOfAvail avail prevIndex

/-- The `Enter`/`Space` branch (`src/shared/hooks`, lines 97-106): only an
in-bounds, non-disabled highlighted option is handed to `onSelect`. -/
def selectBranch (options : List Opt) (highlightedIndex : Int) : Int × NavEffect :=
  if 0 ≤ highlightedIndex ∧ highlightedIndex < (options.length : Int) then
    match options.get? highlightedIndex.toNat with
    | some option =>
        if option.disabled then (highlightedIndex, NavEffect.noEff)
        else (highlightedIndex, NavEffect.selectEff option)
    | none => (highlightedIndex, NavEffect.noEff)
  else (highlightedIndex, NavEffect.noEff)

/-- The `Home` branch (`src/shared/hooks`, lines 111-120):
`options.findIndex(o => !o.disabled)`, assigned only when it is not `-1`. -/
def homeBranch (options : List Opt) (highlightedIndex : Int) : Int × NavEffect :=
  let firstAvailable := jsFindIndexL (fun o => !o.disabled) options
  if firstAvailable ≠ -1 then (firstAvailable, NavEffect.noEff)
  else (highlightedIndex, NavEffect.noEff)

/-- The `End` branch (`src/shared/hooks`, lines 121-130):
`options.indexOf(availableOptions[availableOptions.length - 1])`, assigned
only when the filtered list is nonempty. -/
def endBranch (options : List Opt) (highlightedIndex : Int) : Int × NavEffect :=
  let avail := availIdx options
  if 0 < avail.length then
    (jsIndexOfAvail avail ((avail.length : Int) - 1), NavEffect.noEff)
  else (highlightedIndex, NavEffect.noEff)

/-- One key-down of `useKeyboardNavigation` (`src/shared/hooks`,
lines 51-134): given the option list, whether the dropdown is open and the
current highlighted index, a key yields the new highlighted index and the
callback effect.  When the dropdown is closed, ArrowDown/ArrowUp/Enter/Space
call `onOpen` and every other key does nothing (lines 53-65). -/
def handleKeyDown (options : List Opt) (isOpen : Bool) (highlightedIndex : Int) :
    Key → Int × NavEffect
  | Key.arrowDown =>
      if isOpen then (nextDownIdx options highlightedIndex, NavEffect.noEff)
      else (highlightedIndex, NavEffect.openEff)
  | Key.arrowUp =>
      if isOpen then (nextUpIdx options highlightedIndex, NavEffect.noEff)
      else (highlightedIndex, NavEffect.openEff)
  | Key.enter =>
      if isOpen then selectBranch options highlightedIndex
      else (highlightedIndex, NavEffect.openEff)
  | Key.space =>
      if isOpen then selectBranch options highlightedIndex
      else (highlightedIndex, NavEffect.openEff)
  | Key.escape =>
      if isOpen then (highlightedIndex, NavEffect.closeEff)
      else (highlightedIndex, NavEffect.noEff)
  | Key.home =>
      if isOpen then homeBranch options highlightedIndex
      else (highlightedIndex, NavEffect.noEff)
  | Key.endKey =>
      if isOpen then endBranch options highlightedIndex
      else (highlightedIndex, NavEffect.noEff)
  | Key.other => (highlightedIndex, NavEffect.noEff)

/-- The multi-mode toggle inside `handleSelect` (`InputDropdown` component,
`src/test/setup.ts`, lines 791-797): an option whose value is already
selected is removed (`currentValue.filter(item => item.value !== option.value)`),
otherwise it is appended at the end (`[...currentValue, option]`). -/
def toggleOption (selected : List Opt) (option : Opt) : List Opt :=
  if selected.any (fun s => s.value == option.value) then
    selected.filter (fun s => s.value != option.value)
  else
    selected ++ [option]

/-- `handleSelect` from the `InputDropdown` component (`src/test/setup.ts`,
lines 786-819), restricted to its value and open-state effect: a disabled
option returns early (line 787); when `multiple && Array.isArray(currentValue)`
the membership is toggled by value equality and the list stays open;
otherwise the clicked option replaces the value and the list closes exactly
when `closeOnSelect` (a prop defaulting to `true`) is set.  The second
component records whether `handleClose` runs. -/
def handleSelect (multiple closeOnSelect : Bool) (currentValue : SelValue)
    (option : Opt) : SelValue × Bool :=
  if option.disabled then (currentValue, false)
  else
    match multiple, currentValue with
    | true, SelValue.multi l => (SelValue.multi (toggleOption l option), false)
    | _, _ => (SelValue.single option, closeOnSelect)

/-- How the component's state reacts to one hook callback: `onSelect` runs
`handleSelect` (the value updates, and the list closes when `handleSelect`
calls `handleClose`); `onOpen` (`src/test/setup.ts`, lines 761-775) opens
the list; `onClose` (lines 777-784) closes it. -/
def applyEffect (multiple closeOnSelect : Bool) (v : SelValue) (isOpen : Bool) :
    NavEffect → SelValue × Bool
  | NavEffect.selectEff o =>
      let r := handleSelect multiple closeOnSelect v o
      (r.1, if r.2 then false else isOpen)
  | NavEffect.closeEff => (v, false)
  | NavEffect.openEff => (v, true)
  | NavEffect.noEff => (v, isOpen)

/-- The open/close flag, the highlighted index and the selection value: the
widget state shared by `useKeyboardNavigation` and its host `InputDropdown`
component. -/
structure WState where
  isOpen : Bool
  highlightedIndex : Int
  value : SelValue
deriving DecidableEq, Repr

/-- One whole key-down step of the widget: the key handler runs, the
callbacks update the value and the open flag (`applyEffect`, covering the
close-on-select path of single-mode selection), and the hook's effect
(`src/shared/hooks`, lines 44-49) resets the highlighted index to `-1` when
`isOpen` has changed to `false`. -/
def stepWidget (options : List Opt) (multiple closeOnSelect : Bool)
    (st : WState) (k : Key) : WState :=
  let r := handleKeyDown options st.isOpen st.highlightedIndex k
  let ve := applyEffect multiple closeOnSelect st.value st.isOpen r.2
  let isOpen2 := ve.2
  let idx2 := if isOpen2 ≠ st.isOpen ∧ isOpen2 = false then -1 else r.1
  ⟨isOpen2, idx2, ve.1⟩

/-- The initial widget state: closed (`useState(false)`), no highlight
(`useState(-1)`), with `v0` the component's initial value
(`useState(multiple ? [] : {})` or the controlled prop). -/
def initWState (v0 : SelValue) : WState := ⟨false, -1, v0⟩

/-- The windowed rows of `useVirtualScroll` (`src/shared/hooks`,
lines 277-311), start side: `Math.max(0, Math.floor(scrollTop / itemHeight) - overscan)`. -/
def vsStartIndex (itemHeight overscan scrollTop : Nat) : Int :=
  max 0 (((scrollTop / itemHeight : Nat) : Int) - (overscan : Int))

/-- `Math.ceil(a / b)` for natural `a` and positive natural `b`. -/
def ceilDivNat (a b : Nat) : Nat := (a + b - 1) / b

/-- End side of the window:
`Math.min(items.length - 1, Math.ceil((scrollTop + containerHeight) / itemHeight) + overscan)`. -/
def vsEndIndex (n itemHeight containerHeight overscan scrollTop : Nat) : Int :=
  min ((n : Int) - 1)
    ((ceilDivNat (scrollTop + containerHeight) itemHeight : Int) + (overscan : Int))

/-- The result record of `useVirtualScroll`: the windowed rows (each with its
index in the full list), the total pixel height, and the pixel offset of the
window. -/
structure VirtualScrollResult (α : Type) where
  visibleItems : List (α × Nat)
  totalHeight : Nat
  offsetY : Nat
deriving Repr

/-- `useVirtualScroll` from `src/shared/hooks`, lines 277-311, as a function
of the scroll offset (held in `useState` in the source):
`items.slice(startIndex, endIndex + 1).map((item, index) => ({item, index: startIndex + index}))`. -/
def useVirtualScroll {α : Type} (items : List α)
    (itemHeight containerHeight overscan scrollTop : Nat) : VirtualScrollResult α :=
  let startIndex := vsStartIndex itemHeight overscan scrollTop
  let endIndex := vsEndIndex items.length itemHeight containerHeight overscan scrollTop
  let visibleItems :=
    ((items.drop startIndex.toNat).take (endIndex + 1 - startIndex).toNat).enum.map
      (fun p => (p.2, startIndex.toNat + p.1))
  { visibleItems := visibleItems
    totalHeight := items.length * itemHeight
    offsetY := startIndex.toNat * itemHeight }

/-- The indices of the windowed rows. -/
def windowRows {α : Type} (items : List α)
    (itemHeight containerHeight overscan scrollTop : Nat) : List Nat :=
  (useVirtualScroll items itemHeight containerHeight overscan scrollTop).visibleItems.map
    Prod.snd

/-- The claim's window, following the spec's words: the rows whose pixel
interval `[i*h, (i+1)*h)` intersects the visible range `[s, s+c]` extended by
the overscan margin `o*h` on each side. -/
def specWindowRows (n itemHeight containerHeight overscan scrollTop : Nat) : List Nat :=
  (List.range n).filter (fun i =>
    ((i * itemHeight : Nat) : Int) ≤ (scrollTop : Int) + (containerHeight : Int)
        + (overscan : Int) * (itemHeight : Int) &&
    (((i + 1) * itemHeight : Nat) : Int) > (scrollTop : Int)
        - (overscan : Int) * (itemHeight : Int))

/-- `ITEM_HEIGHT` from the `InputDropdown` component (`src/test/setup.ts`,
line 143): the fixed per-row pixel height. -/
def ITEM_HEIGHT : Nat := 40

/-- `DEFAULT_MAX_HEIGHT` (`src/test/setup.ts`, line 144): the default value
of the `maxHeight` prop. -/
def DEFAULT_MAX_HEIGHT : Nat := 240

/-- `LARGE_LIST_THRESHOLD` (`src/test/setup.ts`, line 145): the item-count
threshold for automatic virtualization. -/
def LARGE_LIST_THRESHOLD : Nat := 100

/-- `dropdownHeight` (`src/test/setup.ts`, lines 699-702):
`Math.min(maxHeight, filteredOptions.length * ITEM_HEIGHT)`, the container
height handed to `useVirtualScroll`. -/
def dropdownHeight (maxHeight numFiltered : Nat) : Nat :=
  min maxHeight (numFiltered * ITEM_HEIGHT)

/-- `shouldUseVirtualScroll` (`src/test/setup.ts`, lines 693-697):
`enableVirtualScroll ?? filteredOptions.length > LARGE_LIST_THRESHOLD` - an
explicit prop overrides, otherwise virtualization activates strictly above
the threshold. -/
def shouldUseVirtualScroll (enableVirtualScroll : Option Bool)
    (numFiltered : Nat) : Bool :=
  match enableVirtualScroll with
  | some b => b
  | none => numFiltered > LARGE_LIST_THRESHOLD

/-- Following the spec's words for the `ArrowDown` contract: the next
non-disabled index after `prev` in list order, wrapping to the first
non-disabled index when there is none after `prev`. -/
def specNextEnabled (options : List Opt) (prev : Int) : Int :=
  match (availIdx options).find? (fun i => prev < (i : Int)) with
  | some i => (i : Int)
  | none => jsFindIndexL (fun o => !o.disabled) options

/-! ### Helper lemmas -/

theorem isPrefixL_iff (p l : List Char) : isPrefixL p l = true ↔ ∃ r, l = p ++ r := by
  induction p generalizing l with
  | nil => simp [isPrefixL]
  | cons a as ih =>
    cases l with
    | nil => simp [isPrefixL]
    | cons b bs =>
      simp only [isPrefixL, Bool.and_eq_true, beq_iff_eq, ih, List.cons_append,
        List.cons.injEq]
      constructor
      · rintro ⟨rfl, r, rfl⟩
        exact ⟨r, rfl, rfl⟩
      · rintro ⟨r, rfl, rfl⟩
        exact ⟨rfl, r, rfl⟩

theorem hasSub_iff (q l : List Char) :
    hasSub q l = true ↔ ∃ pre post, l = pre ++ q ++ post := by
  induction l with
  | nil =>
    simp only [hasSub, isPrefixL_iff]
    constructor
    · rintro ⟨r, hr⟩
      rcases List.append_eq_nil.mp hr.symm with ⟨rfl, rfl⟩
      exact ⟨[], [], rfl⟩
    · rintro ⟨pre, post, h⟩
      rcases List.append_eq_nil.mp h.symm with ⟨h1, rfl⟩
      rcases List.append_eq_nil.mp h1 with ⟨rfl, rfl⟩
      exact ⟨[], rfl⟩
  | cons b bs ih =>
    simp only [hasSub, Bool.or_eq_true, isPrefixL_iff, ih]
    constructor
    · rintro (⟨r, hr⟩ | ⟨pre, post, hp⟩)
      · exact ⟨[], r, by simp [hr]⟩
      · exact ⟨b :: pre, post, by simp [hp]⟩
    · rintro ⟨pre, post, hp⟩
      cases pre with
      | nil => exact Or.inl ⟨post, by simpa using hp⟩
      | cons x xs =>
        rcases List.cons_eq_cons.mp hp with ⟨rfl, htl⟩
        exact Or.inr ⟨xs, post, htl⟩

theorem jsIncludes_iff (s q : String) :
    jsIncludes s q = true ↔ ∃ pre post, s.data = pre ++ q.data ++ post := by
  simpa [jsIncludes] using hasSub_iff q.data s.data

theorem optionMatches_iff (q : String) (o : Opt) :
    optionMatches (jsToLower q) o = true ↔ specMatchesCI q o := by
  simp only [optionMatches, specMatchesCI, isSubstrCI, Bool.or_eq_true, jsIncludes_iff]
  constructor
  · rintro ((h | h) | h)
    · exact Or.inl h
    · exact Or.inr (Or.inl h)
    · refine Or.inr (Or.inr ?_)
      cases hd : o.description with
      | none => rw [hd] at h; cases h
      | some d =>
        rw [hd] at h
        simp only [jsIncludes_iff] at h
        exact ⟨d, rfl, h⟩
  · rintro (h | h | ⟨d, hd, h⟩)
    · exact Or.inl (Or.inl h)
    · exact Or.inl (Or.inr h)
    · rw [hd]
      refine Or.inr ?_
      simpa only [jsIncludes_iff] using h

/-- Concrete option used in counterexamples and witnesses. -/
def cxOpt : Opt := ⟨"ab", "ab", none, false⟩

/-! ### Claims -/

/-- C1 (counterexample): for the whitespace query `" "` the filter returns
the option `⟨"ab", "ab"⟩` even though none of its fields contains `" "` as a
substring, so filtering does not return "exactly those options whose label,
value, or description contains the query" for every query string. -/
theorem C1_filter_cex :
    filterOptions [cxOpt] " " = [cxOpt] ∧ ¬ specMatchesCI " " cxOpt := by
  constructor
  · decide
  · intro hsp
    have h := (optionMatches_iff " " cxOpt).mpr hsp
    revert h
    decide

/-- C1 (amended): for every query whose trim is nonempty, filtering returns
a sublist of the options containing exactly those whose label, value, or
description contains the query as a case-insensitive substring; empty
queries return all options unchanged. -/
theorem C1_filter_amended (opts : List Opt) (q : String) (hq : jsTrim q ≠ "") :
    List.Sublist (filterOptions opts q) opts ∧
    (∀ o : Opt, o ∈ filterOptions opts q ↔ o ∈ opts ∧ specMatchesCI q o) ∧
    filterOptions opts "" = opts := by
  refine ⟨?_, ?_, ?_⟩
  · rw [filterOptions, if_neg hq]
    exact List.filter_sublist opts
  · intro o
    rw [filterOptions, if_neg hq]
    simp only [List.mem_filter, optionMatches_iff]
  · rfl

/-- C1 (witness): the amended theorem at the query `"A"` over `[cxOpt]`. -/
theorem C1_filter_witness :
    jsTrim "A" ≠ "" ∧
    (List.Sublist (filterOptions [cxOpt] "A") [cxOpt] ∧
     (∀ o : Opt, o ∈ filterOptions [cxOpt] "A" ↔ o ∈ [cxOpt] ∧ specMatchesCI "A" o) ∧
     filterOptions [cxOpt] "" = [cxOpt]) :=
  ⟨by decide, C1_filter_amended [cxOpt] "A" (by decide)⟩

/-- C6: filtering is idempotent; applying the filter a second time with the
same query to its own output returns that output unchanged. -/
theorem C6_filter_idem (opts : List Opt) (q : String) :
    filterOptions (filterOptions opts q) q = filterOptions opts q := by
  by_cases hq : jsTrim q = ""
  · rw [filterOptions, if_pos hq]
  · rw [filterOptions, if_neg hq]
    conv_lhs => rw [filterOptions, if_neg hq]
    rw [filterOptions, if_neg hq]
    rw [List.filter_filter]
    simp

/-- C9: a query consisting only of whitespace characters (not only the empty
string) has an empty trim, so the filter returns the input option list
itself, rather than matching the whitespace literally. -/
theorem C9_whitespace_query (opts : List Opt) (q : String) (hne : q ≠ "")
    (hws : ∀ c ∈ q.data, isJsWhitespace c = true) :
    filterOptions opts q = opts := by
  have htrim : jsTrim q = "" := by
    have h1 : q.data.dropWhile isJsWhitespace = [] :=
      List.dropWhile_eq_nil_iff.mpr hws
    simp [jsTrim, h1]
  rw [filterOptions, if_pos htrim]

/-- C9 (witness): the whitespace query `" "` over `[cxOpt]`. -/
theorem C9_whitespace_query_witness :
    (" " : String) ≠ "" ∧ (∀ c ∈ (" " : String).data, isJsWhitespace c = true) ∧
    filterOptions [cxOpt] " " = [cxOpt] :=
  ⟨by decide, by decide, C9_whitespace_query [cxOpt] " " (by decide) (by decide)⟩

/-- C10: selected-label extraction returns `[]` for an absent value and for
every value whose shape disagrees with the `multiple` flag (an array with
`multiple = false`, a single option with `multiple = true`); when the shapes
agree it returns the labels in selection order. -/
theorem C10_selected_labels :
    (∀ m : Bool, getSelectedOptionLabels SelValue.undef m = []) ∧
    (∀ l : List Opt, getSelectedOptionLabels (SelValue.multi l) false = []) ∧
    (∀ o : Opt, getSelectedOptionLabels (SelValue.single o) true = []) ∧
    (∀ l : List Opt, getSelectedOptionLabels (SelValue.multi l) true = l.map Opt.label) ∧
    (∀ o : Opt, getSelectedOptionLabels (SelValue.single o) false = [o.label]) := by
  refine ⟨?_, ?_, ?_, ?_, ?_⟩ <;> intro x <;> rfl

/-- C2: with the dropdown open and the highlighted index pointing at a
disabled option, Enter and Space invoke no callback (in particular not
`onSelect`), leave the highlighted index unchanged, and the selection value
stays the same; and even a direct `handleSelect` call with a disabled option
(the mouse-click path) returns early, changing neither the value nor the
open state. -/
theorem C2_disabled_never_selected (opts : List Opt) (idx : Int) (v : SelValue)
    (m cos : Bool) (op : Opt) (k : Key) (hk : k = Key.enter ∨ k = Key.space)
    (hge : 0 ≤ idx) (hlt : idx < (opts.length : Int))
    (hdis : (opts.get? idx.toNat).map Opt.disabled = some true)
    (hopd : op.disabled = true) :
    handleKeyDown opts true idx k = (idx, NavEffect.noEff) ∧
    (applyEffect m cos v true (handleKeyDown opts true idx k).2).1 = v ∧
    handleSelect m cos v op = (v, false) := by
  rcases Option.map_eq_some'.mp hdis with ⟨op', hop, hopd'⟩
  rw [List.get?_eq_getElem?] at hop
  have hmain : handleKeyDown opts true idx k = (idx, NavEffect.noEff) := by
    rcases hk with rfl | rfl <;>
      simp [handleKeyDown, selectBranch, if_pos (And.intro hge hlt), hop, hopd']
  refine ⟨hmain, ?_, ?_⟩
  · rw [hmain]
    rfl
  · cases m <;> cases v <;> simp [handleSelect, hopd]

/-- C2 (witness): Enter over `[o₀, disabled o₁, o₂]` with the highlight on
the disabled index `1` selects nothing and keeps the single-mode value, and
`handleSelect` on the disabled option changes nothing. -/
theorem C2_disabled_never_selected_witness :
    (Key.enter = Key.enter ∨ Key.enter = Key.space) ∧ (0 : Int) ≤ 1 ∧
    (1 : Int) < (([⟨"a", "a", none, false⟩, ⟨"b", "b", none, true⟩,
      ⟨"c", "c", none, false⟩] : List Opt).length : Int) ∧
    (([⟨"a", "a", none, false⟩, ⟨"b", "b", none, true⟩,
      ⟨"c", "c", none, false⟩] : List Opt).get? (1 : Int).toNat).map Opt.disabled
      = some true ∧
    Opt.disabled ⟨"b", "b", none, true⟩ = true ∧
    (handleKeyDown [⟨"a", "a", none, false⟩, ⟨"b", "b", none, true⟩,
      ⟨"c", "c", none, false⟩] true 1 Key.enter = (1, NavEffect.noEff) ∧
     (applyEffect false true (SelValue.single cxOpt) true
       (handleKeyDown [⟨"a", "a", none, false⟩, ⟨"b", "b", none, true⟩,
         ⟨"c", "c", none, false⟩] true 1 Key.enter).2).1 = SelValue.single cxOpt ∧
     handleSelect false true (SelValue.single cxOpt) ⟨"b", "b", none, true⟩
       = (SelValue.single cxOpt, false)) :=
  ⟨Or.inl rfl, by decide, by decide, by decide, by decide,
    C2_disabled_never_selected _ 1 (SelValue.single cxOpt) false true
      ⟨"b", "b", none, true⟩ Key.enter (Or.inl rfl) (by decide) (by decide)
      (by decide) (by decide)⟩

theorem stepWidget_open_reset (opts : List Opt) (m cos : Bool) (st : WState)
    (k : Key) (hopen : st.isOpen = true)
    (hclosed : (stepWidget opts m cos st k).isOpen = false) :
    (stepWidget opts m cos st k).highlightedIndex = -1 := by
  have h2 : (applyEffect m cos st.value st.isOpen
      (handleKeyDown opts st.isOpen st.highlightedIndex k).2).2 = false := hclosed
  show (if (applyEffect m cos st.value st.isOpen
        (handleKeyDown opts st.isOpen st.highlightedIndex k).2).2 ≠ st.isOpen ∧
      (applyEffect m cos st.value st.isOpen
        (handleKeyDown opts st.isOpen st.highlightedIndex k).2).2 = false then
      (-1 : Int)
    else (handleKeyDown opts st.isOpen st.highlightedIndex k).1) = -1
  rw [if_pos ⟨by rw [h2, hopen]; exact Bool.false_ne_true, h2⟩]

/-- C7: the closed-implies-no-highlight invariant is preserved by every
key-down step of the widget (including the single-mode close-on-select
path), every step that changes the open/close state leaves the highlight
reset to `-1`, and the initial state satisfies the invariant. -/
theorem C7_highlight_reset (opts : List Opt) (m cos : Bool) (st : WState)
    (k : Key) (v0 : SelValue)
    (hinv : st.isOpen = false → st.highlightedIndex = -1) :
    ((stepWidget opts m cos st k).isOpen = false →
      (stepWidget opts m cos st k).highlightedIndex = -1) ∧
    (st.isOpen ≠ (stepWidget opts m cos st k).isOpen →
      (stepWidget opts m cos st k).highlightedIndex = -1) ∧
    ((initWState v0).isOpen = false → (initWState v0).highlightedIndex = -1) := by
  rcases st with ⟨op, idx, v⟩
  cases op
  · have hidx : idx = -1 := hinv rfl
    subst hidx
    cases k <;> simp [stepWidget, handleKeyDown, applyEffect, initWState]
  · refine ⟨stepWidget_open_reset opts m cos ⟨true, idx, v⟩ k rfl, ?_,
      by simp [initWState]⟩
    intro hne
    apply stepWidget_open_reset opts m cos ⟨true, idx, v⟩ k rfl
    cases hb : (stepWidget opts m cos ⟨true, idx, v⟩ k).isOpen
    · rfl
    · exact absurd rfl (hb ▸ hne)

/-- C5: in multi mode, selecting a non-disabled option runs the toggle
(`handleSelect` with an array value toggles membership by value equality and
keeps the list open); with pairwise-distinct values in the selection (the
data model declares `value` a unique key) and the toggled option equal to
the selection's entry carrying its value (the component always hands back
the stored object), toggling twice returns the original selection set (a
permutation of the original list), and a single toggle keeps the surviving
previously-selected options in their original relative order. -/
theorem C5_toggle_twice (selected : List Opt) (o : Opt) (cos : Bool)
    (hnd : (selected.map Opt.value).Nodup)
    (hid : ∀ s ∈ selected, s.value = o.value → s = o)
    (hdis : o.disabled = false) :
    handleSelect true cos (SelValue.multi selected) o
      = (SelValue.multi (toggleOption selected o), false) ∧
    (toggleOption (toggleOption selected o) o).Perm selected ∧
    List.Sublist
      ((toggleOption selected o).filter (fun s => decide (s ∈ selected)))
      selected := by
  refine ⟨by simp [handleSelect, hdis], ?_⟩
  by_cases hmem : ∃ s ∈ selected, s.value = o.value
  · -- o's value is present, hence (by `hid`) o itself is selected
    rcases hmem with ⟨s0, hs0, hv0⟩
    have ho : o ∈ selected := hid s0 hs0 hv0 ▸ hs0
    rcases List.append_of_mem ho with ⟨l₁, l₂, rfl⟩
    have hnd' := hnd
    rw [List.map_append, List.map_cons] at hnd'
    have hsplit := List.nodup_append.mp hnd'
    have hl₁ : ∀ a ∈ l₁, a.value ≠ o.value := by
      intro a ha he
      exact hsplit.2.2 (he ▸ List.mem_map_of_mem Opt.value ha)
        (List.mem_cons_self o.value (l₂.map Opt.value))
    have hl₂ : ∀ a ∈ l₂, a.value ≠ o.value := by
      intro a ha he
      exact (List.nodup_cons.mp hsplit.2.1).1 (List.mem_map.mpr ⟨a, ha, he⟩)
    have hany : (l₁ ++ o :: l₂).any (fun s => s.value == o.value) = true := by
      refine List.any_eq_true.mpr ⟨o, List.mem_append.mpr (Or.inr (List.mem_cons_self o l₂)), ?_⟩
      exact beq_self_eq_true o.value
    have hfil : (l₁ ++ o :: l₂).filter (fun s => s.value != o.value) = l₁ ++ l₂ := by
      rw [List.filter_append, List.filter_cons]
      have h1 : l₁.filter (fun s => s.value != o.value) = l₁ :=
        List.filter_eq_self.mpr (fun a ha => bne_iff_ne.mpr (hl₁ a ha))
      have h2 : l₂.filter (fun s => s.value != o.value) = l₂ :=
        List.filter_eq_self.mpr (fun a ha => bne_iff_ne.mpr (hl₂ a ha))
      simp [h1, h2]
    have htog1 : toggleOption (l₁ ++ o :: l₂) o = l₁ ++ l₂ := by
      rw [toggleOption, if_pos hany, hfil]
    have hany2 : (l₁ ++ l₂).any (fun s => s.value == o.value) = false := by
      refine List.any_eq_false.mpr ?_
      intro a ha
      rcases List.mem_append.mp ha with h | h
      · simpa using hl₁ a h
      · simpa using hl₂ a h
    have htog2 : toggleOption (l₁ ++ l₂) o = (l₁ ++ l₂) ++ [o] := by
      rw [toggleOption, hany2]
      simp
    constructor
    · rw [htog1, htog2, List.append_assoc]
      exact List.Perm.append_left l₁ (List.perm_append_singleton o l₂)
    · rw [htog1]
      have hkeep : (l₁ ++ l₂).filter (fun s => decide (s ∈ l₁ ++ o :: l₂)) = l₁ ++ l₂ := by
        refine List.filter_eq_self.mpr ?_
        intro a ha
        rcases List.mem_append.mp ha with h | h
        · simp [List.mem_append.mpr (Or.inl h)]
        · simp [List.mem_append.mpr (Or.inr (List.mem_cons_of_mem o h))]
      rw [hkeep]
      exact List.Sublist.append_left (List.sublist_cons_self o l₂) l₁
  · -- o's value is absent: the first toggle appends, the second removes it
    have hany : selected.any (fun s => s.value == o.value) = false := by
      refine List.any_eq_false.mpr ?_
      intro a ha he
      exact hmem ⟨a, ha, by simpa using he⟩
    have hnotmem : o ∉ selected := fun h => hmem ⟨o, h, rfl⟩
    have htog1 : toggleOption selected o = selected ++ [o] := by
      rw [toggleOption, hany]
      simp
    have hsel : ∀ a ∈ selected, a.value ≠ o.value := fun a ha he => hmem ⟨a, ha, he⟩
    have hany2 : (selected ++ [o]).any (fun s => s.value == o.value) = true := by
      refine List.any_eq_true.mpr ⟨o, List.mem_append.mpr (Or.inr (List.mem_singleton_self o)), ?_⟩
      exact beq_self_eq_true o.value
    have htog2 : toggleOption (selected ++ [o]) o = selected := by
      rw [toggleOption, if_pos hany2, List.filter_append, List.filter_cons]
      have h1 : selected.filter (fun s => s.value != o.value) = selected :=
        List.filter_eq_self.mpr (fun a ha => bne_iff_ne.mpr (hsel a ha))
      simp [h1]
    constructor
    · rw [htog1, htog2]
    · rw [htog1, List.filter_append, List.filter_cons]
      have h1 : selected.filter (fun s => decide (s ∈ selected)) = selected :=
        List.filter_eq_self.mpr (fun a ha => by simpa using ha)
      simp [h1, hnotmem]

/-- C5 (witness): toggling `⟨"A","a"⟩` twice on the selection
`[⟨"A","a"⟩, ⟨"B","b"⟩]`, with `handleSelect` performing the toggle. -/
theorem C5_toggle_twice_witness :
    (([⟨"A", "a", none, false⟩, ⟨"B", "b", none, false⟩] : List Opt).map Opt.value).Nodup ∧
    (∀ s ∈ ([⟨"A", "a", none, false⟩, ⟨"B", "b", none, false⟩] : List Opt),
      s.value = Opt.value ⟨"A", "a", none, false⟩ → s = ⟨"A", "a", none, false⟩) ∧
    Opt.disabled ⟨"A", "a", none, false⟩ = false ∧
    (handleSelect true true
        (SelValue.multi [⟨"A", "a", none, false⟩, ⟨"B", "b", none, false⟩])
        ⟨"A", "a", none, false⟩
      = (SelValue.multi (toggleOption [⟨"A", "a", none, false⟩,
          ⟨"B", "b", none, false⟩] ⟨"A", "a", none, false⟩), false) ∧
     (toggleOption (toggleOption [⟨"A", "a", none, false⟩, ⟨"B", "b", none, false⟩]
        ⟨"A", "a", none, false⟩) ⟨"A", "a", none, false⟩).Perm
      [⟨"A", "a", none, false⟩, ⟨"B", "b", none, false⟩] ∧
     List.Sublist
       ((toggleOption [⟨"A", "a", none, false⟩, ⟨"B", "b", none, false⟩]
          ⟨"A", "a", none, false⟩).filter
         (fun s => decide (s ∈ ([⟨"A", "a", none, false⟩, ⟨"B", "b", none, false⟩] : List Opt))))
       [⟨"A", "a", none, false⟩, ⟨"B", "b", none, false⟩]) :=
  ⟨by decide, by decide, by decide,
    C5_toggle_twice [⟨"A", "a", none, false⟩, ⟨"B", "b", none, false⟩]
      ⟨"A", "a", none, false⟩ true (by decide) (by decide) (by decide)⟩

theorem enumFrom_get?' {α : Type} (l : List α) (k j : Nat) :
    (l.enumFrom k).get? j = (l.get? j).map (fun x => (k + j, x)) := by
  induction l generalizing k j with
  | nil => simp [List.enumFrom]
  | cons a as ih =>
    cases j with
    | zero => simp [List.enumFrom]
    | succ j' =>
      simp only [List.enumFrom, List.get?]
      rw [ih]
      have hkj : k + 1 + j' = k + (j' + 1) := by omega
      rw [hkj]

theorem enum_get?' {α : Type} (l : List α) (j : Nat) :
    l.enum.get? j = (l.get? j).map (fun x => (j, x)) := by
  have h := enumFrom_get?' l 0 j
  simpa [List.enum] using h

theorem snd_mem_of_mem_enum {α : Type} {p : Nat × α} {l : List α}
    (h : p ∈ l.enum) : p.2 ∈ l := by
  rcases List.mem_iff_get?.mp h with ⟨n, hn⟩
  rw [enum_get?'] at hn
  cases ho : l.get? n with
  | none => rw [ho] at hn; cases hn
  | some o =>
    rw [ho] at hn
    simp only [Option.map_some', Option.some.injEq] at hn
    have : p.2 = o := by rw [← hn]
    exact this ▸ List.get?_mem ho

theorem availIdx_sublist_range (opts : List Opt) :
    List.Sublist (availIdx opts) (List.range opts.length) := by
  have h : List.Sublist (opts.enum.filter (fun p => !p.2.disabled)) opts.enum :=
    List.filter_sublist opts.enum
  have h2 := h.map Prod.fst
  rwa [List.enum_map_fst] at h2

theorem availIdx_nodup (opts : List Opt) : (availIdx opts).Nodup :=
  (List.nodup_range opts.length).sublist (availIdx_sublist_range opts)

theorem availIdx_lt {opts : List Opt} {i : Nat} (hi : i ∈ availIdx opts) :
    i < opts.length :=
  List.mem_range.mp ((availIdx_sublist_range opts).subset hi)

theorem jsFindIndexL_cons {α : Type} (p : α → Bool) (x : α) (xs : List α) :
    jsFindIndexL p (x :: xs) =
      if p x then 0
      else if jsFindIndexL p xs = -1 then -1 else jsFindIndexL p xs + 1 := rfl

theorem jsPosOf_get (l : List Nat) (hnd : l.Nodup) (j : Nat) (hj : j < l.length) :
    jsPosOf l ((l.get ⟨j, hj⟩ : Nat) : Int) = (j : Int) := by
  induction l generalizing j with
  | nil => simp at hj
  | cons x xs ih =>
    cases j with
    | zero => simp [jsPosOf, jsFindIndexL_cons]
    | succ j' =>
      have hj' : j' < xs.length := by simpa using hj
      have hx : x ∉ xs := (List.nodup_cons.mp hnd).1
      have hget : (x :: xs).get ⟨j' + 1, hj⟩ = xs.get ⟨j', hj'⟩ := rfl
      rw [hget]
      have hne : ((x : Int) == ((xs.get ⟨j', hj'⟩ : Nat) : Int)) = false := by
        simp only [beq_eq_false_iff_ne, ne_eq, Int.natCast_inj]
        exact fun he => hx (he ▸ List.get_mem xs j' hj')
      have htail : jsPosOf xs ((xs.get ⟨j', hj'⟩ : Nat) : Int) = (j' : Int) :=
        ih (List.nodup_cons.mp hnd).2 j' hj'
      rw [jsPosOf] at htail ⊢
      rw [jsFindIndexL_cons, hne]
      simp only [Bool.false_eq_true, if_false]
      rw [htail]
      have hne2 : (j' : Int) ≠ -1 := by omega
      rw [if_neg hne2]
      omega

theorem jsPosOf_not_mem (l : List Nat) (prev : Int)
    (h : ∀ i ∈ l, (i : Int) ≠ prev) : jsPosOf l prev = -1 := by
  induction l with
  | nil => rfl
  | cons x xs ih =>
    have hx : ((x : Int) == prev) = false := by
      simp only [beq_eq_false_iff_ne, ne_eq]
      exact h x (List.mem_cons_self x xs)
    have htail : jsPosOf xs prev = -1 :=
      ih (fun i hi => h i (List.mem_cons_of_mem x hi))
    rw [jsPosOf] at htail ⊢
    rw [jsFindIndexL_cons, hx]
    simp only [Bool.false_eq_true, if_false]
    rw [htail]
    simp

theorem jsIndexOfAvail_of_lt (l : List Nat) (j : Nat) (hj : j < l.length) :
    jsIndexOfAvail l (j : Int) = ((l.get ⟨j, hj⟩ : Nat) : Int) := by
  rw [jsIndexOfAvail, if_neg (by omega)]
  rw [Int.toNat_natCast, List.get?_eq_get hj]

theorem nextDownIdx_at_avail (opts : List Opt) (j : Nat)
    (hj : j < (availIdx opts).length) :
    nextDownIdx opts (((availIdx opts).get ⟨j, hj⟩ : Nat) : Int) =
      (((availIdx opts).getD ((j + 1) % (availIdx opts).length) 0 : Nat) : Int) := by
  have hpos := jsPosOf_get (availIdx opts) (availIdx_nodup opts) j hj
  rw [nextDownIdx, hpos]
  by_cases hlast : j + 1 < (availIdx opts).length
  · have hcond : (j : Int) < ((availIdx opts).length : Int) - 1 := by omega
    rw [if_pos hcond]
    have hcast : (j : Int) + 1 = ((j + 1 : Nat) : Int) := by omega
    rw [hcast, jsIndexOfAvail_of_lt (availIdx opts) (j + 1) hlast]
    have hmod : (j + 1) % (availIdx opts).length = j + 1 := Nat.mod_eq_of_lt hlast
    rw [hmod, List.getD_eq_get (availIdx opts) 0 hlast]
  · have hj1 : j + 1 = (availIdx opts).length := by omega
    have hcond : ¬ ((j : Int) < ((availIdx opts).length : Int) - 1) := by omega
    rw [if_neg hcond]
    have h0 : (0 : Int) = ((0 : Nat) : Int) := rfl
    have hlt0 : 0 < (availIdx opts).length := by omega
    rw [h0, jsIndexOfAvail_of_lt (availIdx opts) 0 hlt0]
    have hmod : (j + 1) % (availIdx opts).length = 0 := by
      rw [hj1, Nat.mod_self]
    rw [hmod, List.getD_eq_get (availIdx opts) 0 hlt0]

theorem nextUpIdx_at_avail (opts : List Opt) (j : Nat)
    (hj : j < (availIdx opts).length) :
    nextUpIdx opts (((availIdx opts).get ⟨j, hj⟩ : Nat) : Int) =
      (((availIdx opts).getD
          ((j + (availIdx opts).length - 1) % (availIdx opts).length) 0 : Nat) : Int) := by
  have hpos := jsPosOf_get (availIdx opts) (availIdx_nodup opts) j hj
  rw [nextUpIdx, hpos]
  have hlen : 0 < (availIdx opts).length := by omega
  by_cases hfirst : 0 < j
  · have hcond : (j : Int) > 0 := by omega
    rw [if_pos hcond]
    have hcast : (j : Int) - 1 = ((j - 1 : Nat) : Int) := by omega
    have hlt : j - 1 < (availIdx opts).length := by omega
    rw [hcast, jsIndexOfAvail_of_lt (availIdx opts) (j - 1) hlt]
    have hmod : (j + (availIdx opts).length - 1) % (availIdx opts).length = j - 1 := by
      have h1 : j + (availIdx opts).length - 1 = (j - 1) + (availIdx opts).length := by omega
      rw [h1, Nat.add_mod_right, Nat.mod_eq_of_lt hlt]
    rw [hmod, List.getD_eq_get (availIdx opts) 0 hlt]
  · have hj0 : j = 0 := by omega
    have hcond : ¬ ((j : Int) > 0) := by omega
    rw [if_neg hcond]
    have hlt : (availIdx opts).length - 1 < (availIdx opts).length := by omega
    have hcast : ((availIdx opts).length : Int) - 1
        = (((availIdx opts).length - 1 : Nat) : Int) := by omega
    rw [hcast, jsIndexOfAvail_of_lt (availIdx opts) ((availIdx opts).length - 1) hlt]
    have hmod : (j + (availIdx opts).length - 1) % (availIdx opts).length
        = (availIdx opts).length - 1 := by
      rw [hj0]
      simp [Nat.mod_eq_of_lt hlt]
    rw [hmod, List.getD_eq_get (availIdx opts) 0 hlt]

theorem nextIdx_not_at_avail (opts : List Opt) (prev : Int)
    (hne : availIdx opts ≠ []) (hnm : ∀ i ∈ availIdx opts, (i : Int) ≠ prev) :
    nextDownIdx opts prev = (((availIdx opts).getD 0 0 : Nat) : Int) ∧
    nextUpIdx opts prev =
      (((availIdx opts).getD ((availIdx opts).length - 1) 0 : Nat) : Int) := by
  have hlen : 0 < (availIdx opts).length := List.length_pos.mpr hne
  have hpos := jsPosOf_not_mem (availIdx opts) prev hnm
  constructor
  · rw [nextDownIdx, hpos]
    have hcond : (-1 : Int) < ((availIdx opts).length : Int) - 1 := by omega
    rw [if_pos hcond]
    have h0 : (-1 : Int) + 1 = ((0 : Nat) : Int) := rfl
    rw [h0, jsIndexOfAvail_of_lt (availIdx opts) 0 hlen,
      List.getD_eq_get (availIdx opts) 0 hlen]
  · rw [nextUpIdx, hpos]
    have hcond : ¬ ((-1 : Int) > 0) := by omega
    rw [if_neg hcond]
    have hlt : (availIdx opts).length - 1 < (availIdx opts).length := by omega
    have hcast : ((availIdx opts).length : Int) - 1
        = (((availIdx opts).length - 1 : Nat) : Int) := by omega
    rw [hcast, jsIndexOfAvail_of_lt (availIdx opts) ((availIdx opts).length - 1) hlt,
      List.getD_eq_get (availIdx opts) 0 hlt]

/-- C3 (counterexample): in `[enabled₀, disabled₁, enabled₂]` with the
highlighted index `1` (a disabled option), ArrowDown moves the highlight to
index `0`, not to the next non-disabled option in list order, which is `2`. -/
theorem C3_arrow_keys_cex :
    nextDownIdx [⟨"a", "a", none, false⟩, ⟨"b", "b", none, true⟩,
        ⟨"c", "c", none, false⟩] 1 = 0 ∧
    specNextEnabled [⟨"a", "a", none, false⟩, ⟨"b", "b", none, true⟩,
        ⟨"c", "c", none, false⟩] 1 = 2 ∧
    (0 : Int) ≠ 2 := by
  refine ⟨?_, ?_, by decide⟩ <;> decide

/-- C3 (amended): with at least one non-disabled option, the arrow keys
always land on a non-disabled option; when the current highlighted index is
the `j`-th non-disabled position, ArrowDown moves to the `(j+1)`-th and
ArrowUp to the `(j-1)`-th non-disabled position cyclically (wrapping
last-to-first and first-to-last); when the current index is not a
non-disabled position (`-1`, out of range, or a disabled option's index),
ArrowDown restarts at the first non-disabled option and ArrowUp at the
last. -/
theorem C3_arrow_keys_amended (opts : List Opt) (prev : Int)
    (hne : availIdx opts ≠ []) :
    ((∃ i ∈ availIdx opts, nextDownIdx opts prev = (i : Int)) ∧
     (∃ i ∈ availIdx opts, nextUpIdx opts prev = (i : Int))) ∧
    (∀ j : Nat, ∀ hj : j < (availIdx opts).length,
      prev = (((availIdx opts).get ⟨j, hj⟩ : Nat) : Int) →
        nextDownIdx opts prev =
          (((availIdx opts).getD ((j + 1) % (availIdx opts).length) 0 : Nat) : Int) ∧
        nextUpIdx opts prev =
          (((availIdx opts).getD
              ((j + (availIdx opts).length - 1) % (availIdx opts).length) 0 : Nat) : Int)) ∧
    ((∀ i ∈ availIdx opts, (i : Int) ≠ prev) →
      nextDownIdx opts prev = (((availIdx opts).getD 0 0 : Nat) : Int) ∧
      nextUpIdx opts prev =
        (((availIdx opts).getD ((availIdx opts).length - 1) 0 : Nat) : Int)) := by
  have hlen : 0 < (availIdx opts).length := List.length_pos.mpr hne
  refine ⟨?_, ?_, ?_⟩
  · by_cases hmem : ∃ i ∈ availIdx opts, (i : Int) = prev
    · rcases hmem with ⟨i, hi, hip⟩
      rcases List.mem_iff_get.mp hi with ⟨⟨j, hj⟩, hget⟩
      have hprev : prev = (((availIdx opts).get ⟨j, hj⟩ : Nat) : Int) := by
        rw [hget, hip]
      constructor
      · refine ⟨(availIdx opts).getD ((j + 1) % (availIdx opts).length) 0, ?_, ?_⟩
        · rw [List.getD_eq_get (availIdx opts) 0 (Nat.mod_lt _ hlen)]
          exact List.get_mem _ _ _
        · rw [hprev]
          exact nextDownIdx_at_avail opts j hj
      · refine ⟨(availIdx opts).getD
            ((j + (availIdx opts).length - 1) % (availIdx opts).length) 0, ?_, ?_⟩
        · rw [List.getD_eq_get (availIdx opts) 0 (Nat.mod_lt _ hlen)]
          exact List.get_mem _ _ _
        · rw [hprev]
          exact nextUpIdx_at_avail opts j hj
    · push_neg at hmem
      have h := nextIdx_not_at_avail opts prev hne hmem
      constructor
      · refine ⟨(availIdx opts).getD 0 0, ?_, h.1⟩
        rw [List.getD_eq_get (availIdx opts) 0 hlen]
        exact List.get_mem _ _ _
      · refine ⟨(availIdx opts).getD ((availIdx opts).length - 1) 0, ?_, h.2⟩
        rw [List.getD_eq_get (availIdx opts) 0 (by omega)]
        exact List.get_mem _ _ _
  · intro j hj hprev
    rw [hprev]
    exact ⟨nextDownIdx_at_avail opts j hj, nextUpIdx_at_avail opts j hj⟩
  · intro hnm
    exact nextIdx_not_at_avail opts prev hne hnm

/-- C3 (witness): the amended arrow-key theorem over
`[enabled₀, disabled₁, enabled₂]` with the highlight at index `0`. -/
theorem C3_arrow_keys_witness :
    availIdx [⟨"a", "a", none, false⟩, ⟨"b", "b", none, true⟩,
        ⟨"c", "c", none, false⟩] ≠ [] ∧
    (((∃ i ∈ availIdx [⟨"a", "a", none, false⟩, ⟨"b", "b", none, true⟩,
          ⟨"c", "c", none, false⟩],
        nextDownIdx [⟨"a", "a", none, false⟩, ⟨"b", "b", none, true⟩,
          ⟨"c", "c", none, false⟩] 0 = (i : Int)) ∧
      (∃ i ∈ availIdx [⟨"a", "a", none, false⟩, ⟨"b", "b", none, true⟩,
          ⟨"c", "c", none, false⟩],
        nextUpIdx [⟨"a", "a", none, false⟩, ⟨"b", "b", none, true⟩,
          ⟨"c", "c", none, false⟩] 0 = (i : Int))) ∧
     (∀ j : Nat, ∀ hj : j < (availIdx [⟨"a", "a", none, false⟩,
          ⟨"b", "b", none, true⟩, ⟨"c", "c", none, false⟩]).length,
       (0 : Int) = (((availIdx [⟨"a", "a", none, false⟩, ⟨"b", "b", none, true⟩,
            ⟨"c", "c", none, false⟩]).get ⟨j, hj⟩ : Nat) : Int) →
         nextDownIdx [⟨"a", "a", none, false⟩, ⟨"b", "b", none, true⟩,
             ⟨"c", "c", none, false⟩] 0 =
           (((availIdx [⟨"a", "a", none, false⟩, ⟨"b", "b", none, true⟩,
                ⟨"c", "c", none, false⟩]).getD
               ((j + 1) % (availIdx [⟨"a", "a", none, false⟩, ⟨"b", "b", none, true⟩,
                  ⟨"c", "c", none, false⟩]).length) 0 : Nat) : Int) ∧
         nextUpIdx [⟨"a", "a", none, false⟩, ⟨"b", "b", none, true⟩,
             ⟨"c", "c", none, false⟩] 0 =
           (((availIdx [⟨"a", "a", none, false⟩, ⟨"b", "b", none, true⟩,
                ⟨"c", "c", none, false⟩]).getD
               ((j + (availIdx [⟨"a", "a", none, false⟩, ⟨"b", "b", none, true⟩,
                    ⟨"c", "c", none, false⟩]).length - 1) %
                 (availIdx [⟨"a", "a", none, false⟩, ⟨"b", "b", none, true⟩,
                    ⟨"c", "c", none, false⟩]).length) 0 : Nat) : Int)) ∧
     ((∀ i ∈ availIdx [⟨"a", "a", none, false⟩, ⟨"b", "b", none, true⟩,
          ⟨"c", "c", none, false⟩], (i : Int) ≠ 0) →
       nextDownIdx [⟨"a", "a", none, false⟩, ⟨"b", "b", none, true⟩,
           ⟨"c", "c", none, false⟩] 0 =
         (((availIdx [⟨"a", "a", none, false⟩, ⟨"b", "b", none, true⟩,
              ⟨"c", "c", none, false⟩]).getD 0 0 : Nat) : Int) ∧
       nextUpIdx [⟨"a", "a", none, false⟩, ⟨"b", "b", none, true⟩,
           ⟨"c", "c", none, false⟩] 0 =
         (((availIdx [⟨"a", "a", none, false⟩, ⟨"b", "b", none, true⟩,
              ⟨"c", "c", none, false⟩]).getD
             ((availIdx [⟨"a", "a", none, false⟩, ⟨"b", "b", none, true⟩,
                ⟨"c", "c", none, false⟩]).length - 1) 0 : Nat) : Int))) :=
  ⟨by decide,
    C3_arrow_keys_amended [⟨"a", "a", none, false⟩, ⟨"b", "b", none, true⟩,
      ⟨"c", "c", none, false⟩] 0 (by decide)⟩

theorem windowRows_eq {α : Type} (items : List α)
    (hgt c o s : Nat) :
    windowRows items hgt c o s =
      List.range' (vsStartIndex hgt o s).toNat
        (min ((vsEndIndex items.length hgt c o s + 1 - vsStartIndex hgt o s).toNat)
          (items.length - (vsStartIndex hgt o s).toNat)) := by
  rw [windowRows, useVirtualScroll]
  simp only [List.map_map]
  have h1 : (Prod.snd ∘ fun p : Nat × α => (p.2, (vsStartIndex hgt o s).toNat + p.1))
      = (fun x => (vsStartIndex hgt o s).toNat + x) ∘ Prod.fst := rfl
  rw [h1, ← List.map_map, List.enum_map_fst, ← List.range'_eq_map_range]
  congr 1
  rw [List.length_take, List.length_drop]

/-- C4 (counterexample): with 20 rows of height 10, container height 15,
scroll offset 0 and the default overscan 5, the window is rows 0-7 while the
rows intersecting the extended visible range are 0-6 (the code adds
`Math.ceil` plus overscan, one row beyond the margin); and with 101 items -
strictly above `LARGE_LIST_THRESHOLD` (100), so automatic virtualization is
on - at the component's row height `ITEM_HEIGHT` (40) and a `maxHeight` prop
of 4040, the dropdown height covers the whole list and all 101 rows are
windowed, not strictly fewer. -/
theorem C4_virtual_window_cex :
    windowRows (List.range 20) 10 15 5 0 = [0, 1, 2, 3, 4, 5, 6, 7] ∧
    specWindowRows 20 10 15 5 0 = [0, 1, 2, 3, 4, 5, 6] ∧
    windowRows (List.range 20) 10 15 5 0 ≠ specWindowRows 20 10 15 5 0 ∧
    shouldUseVirtualScroll none 101 = true ∧
    (useVirtualScroll (List.range 101) ITEM_HEIGHT
      (dropdownHeight 4040 101) 5 0).visibleItems.length = 101 := by
  refine ⟨?_, ?_, ?_, ?_, ?_⟩ <;> decide

/-- C4 (amended): for positive row height, the window is a contiguous index
range that contains every row intersecting the visible scroll range extended
by the overscan margin on each side, plus at most one additional trailing
row (the code rounds the end boundary up with `Math.ceil` before adding the
overscan); and the number of windowed rows is strictly less than the item
count whenever the window's clamped bounds do not already cover the whole
list (in particular virtualization windows strictly fewer rows for any item
count exceeding the extended visible range). -/
theorem C4_virtual_window_amended {α : Type} (items : List α) (hgt c o s : Nat)
    (hh : 0 < hgt) :
    (∀ i ∈ specWindowRows items.length hgt c o s, i ∈ windowRows items hgt c o s) ∧
    (∀ i ∈ windowRows items hgt c o s,
       i ∈ specWindowRows items.length hgt c o s ∨
       (i : Int) = vsEndIndex items.length hgt c o s) ∧
    (0 < items.length →
      (vsEndIndex items.length hgt c o s < (items.length : Int) - 1 ∨
       0 < vsStartIndex hgt o s) →
      (windowRows items hgt c o s).length < items.length) := by
  have hwr := windowRows_eq items hgt c o s
  have hwin : ∀ i : Nat, i ∈ windowRows items hgt c o s ↔
      (vsStartIndex hgt o s).toNat ≤ i ∧
      i < (vsStartIndex hgt o s).toNat +
        min ((vsEndIndex items.length hgt c o s + 1 - vsStartIndex hgt o s).toNat)
          (items.length - (vsStartIndex hgt o s).toNat) := by
    intro i
    rw [hwr]
    exact List.mem_range'_1
  have hlenw : (windowRows items hgt c o s).length =
      min ((vsEndIndex items.length hgt c o s + 1 - vsStartIndex hgt o s).toNat)
        (items.length - (vsStartIndex hgt o s).toNat) := by
    rw [hwr, List.length_range']
  have hspec : ∀ i : Nat, i ∈ specWindowRows items.length hgt c o s ↔
      (i < items.length ∧ i * hgt ≤ s + c + o * hgt ∧ s < (i + 1) * hgt + o * hgt) := by
    intro i
    simp only [specWindowRows, List.mem_filter, List.mem_range, Bool.and_eq_true,
      decide_eq_true_eq, and_assoc]
    refine and_congr_right (fun _ => and_congr ?_ ?_)
    · constructor
      · intro h
        exact_mod_cast h
      · intro h
        exact_mod_cast h
    · rw [gt_iff_lt, Int.sub_lt_iff]
      constructor
      · intro h
        exact_mod_cast h
      · intro h
        exact_mod_cast h
  have hc1 : ∀ i : Nat, i * hgt ≤ s + c + o * hgt ↔ i ≤ (s + c) / hgt + o := by
    intro i
    rw [← Nat.add_mul_div_right (s + c) o hh]
    exact (Nat.le_div_iff_mul_le hh).symm
  have hc2 : ∀ i : Nat, s < (i + 1) * hgt + o * hgt ↔ s / hgt < i + 1 + o := by
    intro i
    rw [← Nat.add_mul]
    exact (Nat.div_lt_iff_lt_mul hh).symm
  have hstart : vsStartIndex hgt o s = ((s / hgt - o : Nat) : Int) := by
    rw [vsStartIndex]
    omega
  have hend : vsEndIndex items.length hgt c o s =
      min ((items.length : Int) - 1) ((ceilDivNat (s + c) hgt : Int) + (o : Int)) := rfl
  have hBle : (s + c) / hgt ≤ ceilDivNat (s + c) hgt := by
    rw [ceilDivNat]
    exact Nat.div_le_div_right (by omega)
  have hCEle : ceilDivNat (s + c) hgt ≤ (s + c) / hgt + 1 := by
    rw [ceilDivNat, ← Nat.add_div_right (s + c) hh]
    exact Nat.div_le_div_right (by omega)
  refine ⟨?_, ?_, ?_⟩
  · intro i hi
    rw [hspec i] at hi
    rw [hc1 i, hc2 i] at hi
    rw [hwin i]
    omega
  · intro i hi
    rw [hwin i] at hi
    rw [hspec i, hc1 i, hc2 i]
    omega
  · intro hn hcond
    rw [hlenw]
    omega

/-- C4 (witness): the amended window theorem at 12 rows of height 10,
container height 15, overscan 5, scroll offset 0. -/
theorem C4_virtual_window_witness :
    0 < 10 ∧
    ((∀ i ∈ specWindowRows (List.range 12).length 10 15 5 0,
        i ∈ windowRows (List.range 12) 10 15 5 0) ∧
     (∀ i ∈ windowRows (List.range 12) 10 15 5 0,
        i ∈ specWindowRows (List.range 12).length 10 15 5 0 ∨
        (i : Int) = vsEndIndex (List.range 12).length 10 15 5 0) ∧
     (0 < (List.range 12).length →
       (vsEndIndex (List.range 12).length 10 15 5 0 < ((List.range 12).length : Int) - 1 ∨
        0 < vsStartIndex 10 5 0) →
       (windowRows (List.range 12) 10 15 5 0).length < (List.range 12).length)) :=
  ⟨by decide, C4_virtual_window_amended (List.range 12) 10 15 5 0 (by decide)⟩

theorem visibleItems_sound {α : Type} (items : List α) (hgt c o s : Nat) :
    ∀ p ∈ (useVirtualScroll items hgt c o s).visibleItems,
      p.2 < items.length ∧ items.get? p.2 = some p.1 := by
  intro p hp
  rw [useVirtualScroll] at hp
  simp only [List.mem_map] at hp
  obtain ⟨⟨j, x⟩, hmem, rfl⟩ := hp
  rcases List.mem_iff_get?.mp hmem with ⟨mth, hm⟩
  rw [enum_get?'] at hm
  cases hget : (((items.drop (vsStartIndex hgt o s).toNat).take
      (vsEndIndex items.length hgt c o s + 1 - vsStartIndex hgt o s).toNat).get? mth) with
  | none => rw [hget] at hm; cases hm
  | some y =>
    rw [hget] at hm
    simp only [Option.map_some', Option.some.injEq, Prod.mk.injEq] at hm
    have hj : ((items.drop (vsStartIndex hgt o s).toNat).take
        (vsEndIndex items.length hgt c o s + 1 - vsStartIndex hgt o s).toNat).get? j
        = some x := by
      rw [← hm.1, hget, hm.2]
    have hlt : j < ((items.drop (vsStartIndex hgt o s).toNat).take
        (vsEndIndex items.length hgt c o s + 1 - vsStartIndex hgt o s).toNat).length := by
      rcases List.get?_eq_some.mp hj with ⟨h, _⟩
      exact h
    have hjt : j < (vsEndIndex items.length hgt c o s + 1 - vsStartIndex hgt o s).toNat := by
      rw [List.length_take] at hlt
      omega
    rw [List.get?_take hjt, List.get?_drop] at hj
    rcases List.get?_eq_some.mp hj with ⟨hbound, _⟩
    exact ⟨hbound, hj⟩

theorem availIdx_all_disabled (opts2 : List Opt)
    (hdis : ∀ x ∈ opts2, x.disabled = true) : availIdx opts2 = [] := by
  rw [availIdx]
  have hf : opts2.enum.filter (fun p => !p.2.disabled) = [] := by
    rw [List.filter_eq_nil]
    intro p hp
    simp [hdis p.2 (snd_mem_of_mem_enum hp)]
  rw [hf]
  rfl

theorem arrows_all_disabled (opts2 : List Opt) (prev : Int)
    (hdis : ∀ x ∈ opts2, x.disabled = true) :
    nextDownIdx opts2 prev = -1 ∧ nextUpIdx opts2 prev = -1 := by
  have hava := availIdx_all_disabled opts2 hdis
  constructor
  · rw [nextDownIdx, hava]
    simp [jsPosOf, jsFindIndexL, jsIndexOfAvail]
  · rw [nextUpIdx, hava]
    simp [jsPosOf, jsFindIndexL, jsIndexOfAvail]

theorem homeBranch_snd (opts : List Opt) (idx : Int) :
    (homeBranch opts idx).2 = NavEffect.noEff := by
  rw [homeBranch]
  split <;> rfl

theorem endBranch_snd (opts : List Opt) (idx : Int) :
    (endBranch opts idx).2 = NavEffect.noEff := by
  simp only [endBranch]
  split <;> rfl

theorem handleKeyDown_select_sound (opts : List Opt) (isOpen : Bool) (idx : Int)
    (k : Key) (op : Opt)
    (h : (handleKeyDown opts isOpen idx k).2 = NavEffect.selectEff op) :
    ∃ i : Nat, opts.get? i = some op ∧ op.disabled = false ∧ idx = (i : Int) := by
  have hsel : (selectBranch opts idx).2 = NavEffect.selectEff op →
      ∃ i : Nat, opts.get? i = some op ∧ op.disabled = false ∧ idx = (i : Int) := by
    intro h2
    rw [selectBranch] at h2
    split at h2
    · rename_i hcond
      split at h2
      · rename_i opt hopt
        split at h2
        · simp at h2
        · rename_i hdisab
          simp only [Prod.snd, NavEffect.selectEff.injEq] at h2
          subst h2
          refine ⟨idx.toNat, hopt, by simpa using hdisab, by omega⟩
      · simp at h2
    · simp at h2
  cases k <;> cases isOpen <;>
    simp only [handleKeyDown, Bool.true_eq_false, Bool.false_eq_true, if_true,
      if_false, reduceCtorEq] at h <;>
    first
      | cases h
      | exact hsel h
      | (rw [homeBranch_snd] at h; cases h)
      | (rw [endBranch_snd] at h; cases h)

/-- C8: the embedded operations are total and in-bounds on all inputs:
filtering returns a sublist of its input (so no new or dangling options);
selected-label extraction only yields labels of options in the value; every
windowed row of the virtual scroll carries an index inside the item list and
the item actually stored there; a selection callback can only ever be handed
an in-bounds, non-disabled option; and with every option disabled the arrow
keys yield the no-highlight sentinel `-1` instead of failing. -/
theorem C8_total_operations (opts opts2 : List Opt) (q : String) (v : SelValue)
    (m : Bool) (items : List Opt) (hgt c o s : Nat) (prev idx : Int)
    (isOpen : Bool) (k : Key)
    (hdis : ∀ x ∈ opts2, x.disabled = true) :
    List.Sublist (filterOptions opts q) opts ∧
    (∀ lab ∈ getSelectedOptionLabels v m,
      ∃ op : Opt, lab = op.label ∧
        (v = SelValue.single op ∨ ∃ l, v = SelValue.multi l ∧ op ∈ l)) ∧
    (∀ p ∈ (useVirtualScroll items hgt c o s).visibleItems,
      p.2 < items.length ∧ items.get? p.2 = some p.1) ∧
    (∀ op : Opt, (handleKeyDown opts isOpen idx k).2 = NavEffect.selectEff op →
      ∃ i : Nat, opts.get? i = some op ∧ op.disabled = false ∧ idx = (i : Int)) ∧
    nextDownIdx opts2 prev = -1 ∧ nextUpIdx opts2 prev = -1 := by
  refine ⟨?_, ?_, visibleItems_sound items hgt c o s, ?_, arrows_all_disabled opts2 prev hdis⟩
  · rw [filterOptions]
    split
    · exact List.Sublist.refl opts
    · exact List.filter_sublist opts
  · intro lab hlab
    cases v with
    | undef => cases hlab
    | single o' =>
      cases m with
      | false =>
        simp only [getSelectedOptionLabels, if_false, Bool.false_eq_true,
          List.mem_singleton] at hlab
        exact ⟨o', hlab, Or.inl rfl⟩
      | true => simp [getSelectedOptionLabels] at hlab
    | multi l =>
      cases m with
      | false => simp [getSelectedOptionLabels] at hlab
      | true =>
        simp only [getSelectedOptionLabels, if_true, List.mem_map] at hlab
        rcases hlab with ⟨op, hop, rfl⟩
        exact ⟨op, rfl, Or.inr ⟨l, rfl, hop⟩⟩
  · intro op hop
    exact handleKeyDown_select_sound opts isOpen idx k op hop

/-- C8 (witness): the totality theorem at concrete inputs, with the
all-disabled list `[disabled ⟨"b","b"⟩]`. -/
theorem C8_total_operations_witness :
    (∀ x ∈ ([⟨"b", "b", none, true⟩] : List Opt), x.disabled = true) ∧
    (List.Sublist (filterOptions [cxOpt] "a") [cxOpt] ∧
     (∀ lab ∈ getSelectedOptionLabels (SelValue.single cxOpt) false,
       ∃ op : Opt, lab = op.label ∧
         (SelValue.single cxOpt = SelValue.single op ∨
          ∃ l, SelValue.single cxOpt = SelValue.multi l ∧ op ∈ l)) ∧
     (∀ p ∈ (useVirtualScroll [cxOpt] 10 15 5 0).visibleItems,
       p.2 < ([cxOpt] : List Opt).length ∧ ([cxOpt] : List Opt).get? p.2 = some p.1) ∧
     (∀ op : Opt, (handleKeyDown [cxOpt] true 0 Key.enter).2 = NavEffect.selectEff op →
       ∃ i : Nat, ([cxOpt] : List Opt).get? i = some op ∧ op.disabled = false ∧
         (0 : Int) = (i : Int)) ∧
     nextDownIdx [⟨"b", "b", none, true⟩] 0 = -1 ∧
     nextUpIdx [⟨"b", "b", none, true⟩] 0 = -1) :=
  ⟨by decide,
    C8_total_operations [cxOpt] [⟨"b", "b", none, true⟩] "a" (SelValue.single cxOpt)
      false [cxOpt] 10 15 5 0 0 0 true Key.enter (by decide)⟩

/-- C7 (witness): an Enter key-down from the open state with the highlight
on the enabled index `2`, in single mode with `closeOnSelect`, selects the
option, closes the list and resets the highlight. -/
theorem C7_highlight_reset_witness :
    ((WState.mk true 2 (SelValue.single cxOpt)).isOpen = false →
      (WState.mk true 2 (SelValue.single cxOpt)).highlightedIndex = -1) ∧
    (((stepWidget [⟨"a", "a", none, false⟩, ⟨"b", "b", none, true⟩,
         ⟨"c", "c", none, false⟩] false true
         (WState.mk true 2 (SelValue.single cxOpt)) Key.enter).isOpen = false →
       (stepWidget [⟨"a", "a", none, false⟩, ⟨"b", "b", none, true⟩,
         ⟨"c", "c", none, false⟩] false true
         (WState.mk true 2 (SelValue.single cxOpt)) Key.enter).highlightedIndex = -1) ∧
     ((WState.mk true 2 (SelValue.single cxOpt)).isOpen ≠
        (stepWidget [⟨"a", "a", none, false⟩, ⟨"b", "b", none, true⟩,
          ⟨"c", "c", none, false⟩] false true
          (WState.mk true 2 (SelValue.single cxOpt)) Key.enter).isOpen →
       (stepWidget [⟨"a", "a", none, false⟩, ⟨"b", "b", none, true⟩,
         ⟨"c", "c", none, false⟩] false true
         (WState.mk true 2 (SelValue.single cxOpt)) Key.enter).highlightedIndex = -1) ∧
     ((initWState (SelValue.single cxOpt)).isOpen = false →
       (initWState (SelValue.single cxOpt)).highlightedIndex = -1)) :=
  ⟨by decide,
    C7_highlight_reset [⟨"a", "a", none, false⟩, ⟨"b", "b", none, true⟩,
      ⟨"c", "c", none, false⟩] false true
      (WState.mk true 2 (SelValue.single cxOpt)) Key.enter
      (SelValue.single cxOpt) (by decide)⟩